import Mathlib

/-!
Verification of `analyze_users.py`: a linear pipeline that loads a CSV of
user records, computes salary statistics, an occupation ranking and
email-domain counts, and writes a Markdown report.

The embedding below models:
* a parsed data row (`Row`) with a numeric salary, an occupation and an
  email (the email is modelled as its character sequence, since the only
  operation on it is `str.split('@')`);
* the column reductions of lines 19-22 (`seriesMin`, `seriesMax`,
  `seriesMean`, `medianQ`; the median mirrors numpy's nanmedian, which
  averages the sorted elements at positions `(n-1)/2` and `n/2`);
* `value_counts` (line 24 and 28): occurrence counts per distinct key in
  first-appearance order, sorted by descending count with ties kept in
  first-appearance order, and `head(3)` as `List.take 3`;
* the `email_domain` column added at line 27 (`addDomainColumn`): Python's
  `split('@')` splits on every `'@'` and `.str[1]` takes the element at
  index 1, yielding `None`/NaN when the split has fewer than two pieces;
* the surrounding I/O scaffold (lines 7-17 and 30-54): a file-system state
  with the input file and the output file, `read_csv`'s three outcomes
  (missing file, wholly empty file, parsed rows -- a header-only file
  parses to a table with zero data rows and is not an `EmptyDataError`),
  and the report writer.  Decimal display formatting of numbers is
  abstracted (`fmtQ`, `fmtMean`); no claim depends on the rendered digits.
-/

namespace AnalyzeUsers

/-- One parsed data row of the input CSV: columns `salary` (numeric,
modelled as a rational), `occupation` (text) and `email` (text, modelled
as its character sequence). -/
structure Row where
  salary : ℚ
  occupation : String
  email : List Char
deriving DecidableEq

/-- The fixed input path (line 4 of the script). -/
def INPUT_FILE : String := "data/user_data4.csv"

/-- The fixed output path (line 5 of the script). -/
def OUTPUT_FILE : String := "user_analysis.md"

/-- Python's `str.split(sep)` for a single-character separator: splits on
every occurrence of `c`, keeping empty segments, so the result always has
`count c + 1` pieces. -/
def splitOnChar (c : Char) : List Char → List (List Char)
  | [] => [[]]
  | a :: rest =>
    if a = c then [] :: splitOnChar c rest
    else
      match splitOnChar c rest with
      | [] => [[a]]
      | s :: ss => (a :: s) :: ss

/-- Line 27, per element: `email.split('@')` followed by `.str[1]`, i.e.
the element at index 1 of the full split (NaN/`none` when the split has
fewer than two pieces). -/
def extractDomain (e : List Char) : Option (List Char) :=
  (splitOnChar '@' e)[1]?

/-- The `salary` column of the table. -/
def salaries (rows : List Row) : List ℚ :=
  rows.map (·.salary)

/-- Line 19: `df['salary'].min()` (`none` on an empty column, where pandas
yields NaN). -/
def seriesMin : List ℚ → Option ℚ
  | [] => none
  | x :: xs => some (xs.foldl min x)

/-- Line 20: `df['salary'].max()` (`none` on an empty column). -/
def seriesMax : List ℚ → Option ℚ
  | [] => none
  | x :: xs => some (xs.foldl max x)

/-- Line 21: `df['salary'].mean()`, the arithmetic mean (`none` on an
empty column). -/
def seriesMean (xs : List ℚ) : Option ℚ :=
  if xs = [] then none else some (xs.sum / xs.length)

/-- The salary column in ascending order. -/
def sortQ (xs : List ℚ) : List ℚ :=
  List.insertionSort (· ≤ ·) xs

/-- Line 22: `df['salary'].median()`.  Numpy's median averages the sorted
elements at positions `(n-1)/2` and `n/2` (they coincide for odd `n`). -/
def medianQ (xs : List ℚ) : Option ℚ :=
  if xs = [] then none
  else
    some (((sortQ xs).getD ((xs.length - 1) / 2) 0
        + (sortQ xs).getD (xs.length / 2) 0) / 2)

/-- The distinct values of a list in order of first appearance. -/
def firstAppearances {α : Type} [DecidableEq α] : List α → List α
  | [] => []
  | a :: l => a :: (firstAppearances l).filter (fun b => b ≠ a)

/-- The order produced by `value_counts`: by descending count, ties broken
by first appearance in the source list `src`. -/
def rankLE {α : Type} [DecidableEq α] (src : List α) (p q : α × Nat) : Prop :=
  q.2 < p.2 ∨ (p.2 = q.2 ∧ src.indexOf p.1 ≤ src.indexOf q.1)

instance {α : Type} [DecidableEq α] (src : List α) : DecidableRel (rankLE src) := by
  intro p q
  unfold rankLE
  infer_instance

/-- Pandas `Series.value_counts()` (lines 24 and 28): one entry per
distinct value with its occurrence count, sorted by descending count,
equal counts kept in first-appearance order. -/
def valueCounts {α : Type} [DecidableEq α] (l : List α) : List (α × Nat) :=
  List.insertionSort (rankLE l) ((firstAppearances l).map (fun k => (k, l.count k)))

/-- Line 25: `occupation_counts.head(3)`. -/
def topOccupations (rows : List Row) : List (String × Nat) :=
  (valueCounts (rows.map (·.occupation))).take 3

/-- The `email_domain` column computed at line 27, one optional domain per
row. -/
def emailDomainColumn (rows : List Row) : List (Option (List Char)) :=
  rows.map (fun r => extractDomain r.email)

/-- The in-memory DataFrame: the loaded rows plus the `email_domain`
column that line 27 attaches (absent right after loading). -/
structure DataFrame where
  rows : List Row
  emailDomain : Option (List (Option (List Char)))
deriving DecidableEq

/-- Line 8: the freshly loaded table has no `email_domain` column. -/
def loadFrame (rows : List Row) : DataFrame :=
  ⟨rows, none⟩

/-- Line 27: `df['email_domain'] = df['email'].str.split('@').str[1]`
mutates the frame by attaching the derived column. -/
def addDomainColumn (df : DataFrame) : DataFrame :=
  { df with emailDomain := some (emailDomainColumn df.rows) }

/-- Line 28: `df['email_domain'].value_counts()`; `value_counts` drops
missing entries (`dropna=True`), hence the `filterMap id`. -/
def domainCounts (rows : List Row) : List (List Char × Nat) :=
  valueCounts ((emailDomainColumn rows).filterMap id)

/-- Display form of a salary statistic (decimal rendering abstracted; NaN
prints as `nan`). -/
def fmtQ : Option ℚ → String
  | none => "nan"
  | some q => toString q

/-- Display form of the mean, `f-string` `:.2f`: two decimal places
(rounding abstracted to round-half-up on the displayed hundredths). -/
def fmtMean : Option ℚ → String
  | none => "nan"
  | some q =>
    let c : Int := ⌊q * 100 + 1 / 2⌋
    let r : Nat := (c % 100).toNat
    toString (c / 100) ++ "." ++ (if r < 10 then "0" else "") ++ toString r

/-- Lines 43-44: the enumerated occupation list. -/
def renderTop3 (l : List (String × Nat)) : String :=
  String.join (l.enum.map
    (fun p => toString (p.1 + 1) ++ ". " ++ p.2.1 ++ ": " ++ toString p.2.2 ++ " user(s)\n"))

/-- Lines 48-49: the domain bullet list. -/
def renderDomains (l : List (List Char × Nat)) : String :=
  String.join (l.map
    (fun p => "- " ++ p.1.asString ++ ": " ++ toString p.2 ++ " user(s)\n"))

/-- Lines 19-49: the aggregations and the full Markdown report text, in
the order the script writes it. -/
def buildReport (rows : List Row) : String :=
  let sal := salaries rows
  let dfFull := addDomainColumn (loadFrame rows)
  let domCol := dfFull.emailDomain.getD []
  "# User Data Analysis Report\n\n"
    ++ "## Salary Analysis\n\n"
    ++ "**Minimum Salary:** " ++ fmtQ (seriesMin sal) ++ "\n\n"
    ++ "**Maximum Salary:** " ++ fmtQ (seriesMax sal) ++ "\n\n"
    ++ "**Average Salary:** " ++ fmtMean (seriesMean sal) ++ "\n\n"
    ++ "**Median Salary:** " ++ fmtQ (medianQ sal) ++ "\n\n"
    ++ "## Additional Insights\n\n"
    ++ "### Top 3 Most Common Occupations\n\n"
    ++ renderTop3 (topOccupations rows) ++ "\n"
    ++ "### Count of Users by Email Domain\n\n"
    ++ renderDomains (valueCounts (domCol.filterMap id))

/-- The three data rows of validation Scenario 1 of the specification. -/
def sampleRows : List Row :=
  [⟨50000, "Engineer", "a@x.com".data⟩,
   ⟨60000, "Engineer", "b@y.com".data⟩,
   ⟨70000, "Manager", "c@x.com".data⟩]

/-- A row whose email contains no `@` character. -/
def rowNoAt : Row :=
  ⟨42, "Clerk", "nobody".data⟩

/-- The state of the input file: missing, present but with no content at
all (pandas `EmptyDataError`), or parseable with a header and a (possibly
empty) list of data rows. -/
inductive InputFile where
  | absent : InputFile
  | emptyFile : InputFile
  | csv : List Row → InputFile
deriving DecidableEq

/-- The file-system state the script touches: the input file and the
content of `user_analysis.md` (if it exists). -/
structure FS where
  input : InputFile
  output : Option String
deriving DecidableEq

/-- The observable outcome of one run: the confirmation line of line 51,
or one of the diagnostics of lines 10 and 13. -/
inductive RunResult where
  | success : String → RunResult
  | errNotFound : String → RunResult
  | errEmpty : String → RunResult
deriving DecidableEq

/-- The process exit status: 0 on success, and `sys.exit(1)` on each
handled error (lines 11, 14). -/
def exitCode : RunResult → Nat
  | .success _ => 0
  | .errNotFound _ => 1
  | .errEmpty _ => 1

/-- Lines 7-17: `pd.read_csv` with the two relevant handlers.  A missing
file raises `FileNotFoundError`; a file with no content raises
`EmptyDataError`; otherwise the data rows after the header are returned
(a header-only file yields an empty row list, not an error). -/
def readCsv : InputFile → Except RunResult (List Row)
  | .absent => .error (.errNotFound ("Error: File " ++ INPUT_FILE ++ " not found."))
  | .emptyFile => .error (.errEmpty ("Error: File " ++ INPUT_FILE ++ " is empty."))
  | .csv rows => .ok rows

/-- One full run of the script: load, aggregate, write the report,
returning the resulting file system and the observable outcome.  On a load
error the script exits before touching the output file. -/
def runPipeline (fs : FS) : FS × RunResult :=
  match readCsv fs.input with
  | .error e => (fs, e)
  | .ok rows =>
    ({ fs with output := some (buildReport rows) },
      .success ("Analysis complete! Report saved to " ++ OUTPUT_FILE))

/-! Helper lemmas about `splitOnChar`. -/

theorem splitOnChar_ne_nil (c : Char) (l : List Char) : splitOnChar c l ≠ [] := by
  induction l with
  | nil => simp [splitOnChar]
  | cons a rest ih =>
    by_cases h : a = c
    · simp [splitOnChar, h]
    · simp only [splitOnChar, if_neg h]
      cases hs : splitOnChar c rest with
      | nil => simp
      | cons s ss => simp

theorem length_splitOnChar (c : Char) (l : List Char) :
    (splitOnChar c l).length = l.count c + 1 := by
  induction l with
  | nil => simp [splitOnChar]
  | cons a rest ih =>
    by_cases h : a = c
    · subst h
      simp [splitOnChar, List.count_cons_self, ih]
    · rw [List.count_cons_of_ne (by exact fun hc => h hc.symm) rest]
      simp only [splitOnChar, if_neg h]
      cases hs : splitOnChar c rest with
      | nil => exact absurd hs (splitOnChar_ne_nil c rest)
      | cons s ss =>
        rw [hs] at ih
        simpa using ih

theorem splitOnChar_sep_cons (c : Char) (a r : List Char) (h : c ∉ a) :
    splitOnChar c (a ++ c :: r) = a :: splitOnChar c r := by
  induction a with
  | nil => simp [splitOnChar]
  | cons x a' ih =>
    have hx : x ≠ c := fun hc => h (hc ▸ List.mem_cons_self x a')
    have h' : c ∉ a' := fun hc => h (List.mem_cons_of_mem x hc)
    simp only [List.cons_append, splitOnChar, if_neg hx, List.append_eq]
    rw [ih h']

theorem extractDomain_eq_none {l : List Char} (h : l.count '@' = 0) :
    extractDomain l = none := by
  unfold extractDomain
  apply List.getElem?_eq_none
  rw [length_splitOnChar, h]

theorem extractDomain_isSome {l : List Char} (h : l.count '@' = 1) :
    (extractDomain l).isSome = true := by
  unfold extractDomain
  have hlen : (splitOnChar '@' l).length = 2 := by rw [length_splitOnChar, h]
  rw [List.getElem?_eq_getElem (by omega)]
  rfl

/-- C1 (as stated, refuted): for the email `a@b@c`, the script's
`split('@').str[1]` yields the segment `b` between the first and second
`@`, not the whole suffix `b@c` after the first `@`. -/
theorem multi_at_domain_counterexample :
    extractDomain "a@b@c".data = some "b".data ∧
    extractDomain "a@b@c".data ≠ some "b@c".data := by
  constructor
  · decide
  · decide

/-- C1 (amended): for an email with two or more `@` characters, the
extracted domain is the segment strictly between the first and the second
`@` (index 1 of the split on every `@`), not the whole suffix after the
first `@`. -/
theorem domain_between_first_and_second_at (a b c : List Char)
    (ha : '@' ∉ a) (hb : '@' ∉ b) :
    extractDomain (a ++ '@' :: (b ++ '@' :: c)) = some b := by
  unfold extractDomain
  rw [splitOnChar_sep_cons '@' a (b ++ '@' :: c) ha,
    splitOnChar_sep_cons '@' b c hb]
  simp

/-- Witness for C1's amended theorem at a concrete email `x@y@z`. -/
theorem domain_between_first_and_second_at_witness :
    ('@' ∉ ['x'] ∧ '@' ∉ ['y']) ∧
    extractDomain (['x'] ++ '@' :: (['y'] ++ '@' :: ['z'])) = some ['y'] :=
  ⟨⟨by decide, by decide⟩,
    domain_between_first_and_second_at ['x'] ['y'] ['z'] (by decide) (by decide)⟩

/-- C3 (confirmed): when the input file does not exist the run ends with
exit status 1 and the `not found` diagnostic naming the configured input
path, and the file system (in particular the output file) is unchanged. -/
theorem missing_input_behavior (out : Option String) :
    runPipeline ⟨InputFile.absent, out⟩ =
      (⟨InputFile.absent, out⟩,
        RunResult.errNotFound ("Error: File " ++ INPUT_FILE ++ " not found.")) ∧
    exitCode (runPipeline ⟨InputFile.absent, out⟩).2 = 1 :=
  ⟨rfl, rfl⟩

/-- C2 (as stated, refuted): on an input file that contains only a header
row (zero data rows) the run succeeds, exits 0, and produces an output
file -- the `EmptyDataError` branch is not taken. -/
theorem header_only_not_empty_error :
    (runPipeline ⟨InputFile.csv [], none⟩).2 =
      RunResult.success ("Analysis complete! Report saved to " ++ OUTPUT_FILE) ∧
    exitCode (runPipeline ⟨InputFile.csv [], none⟩).2 = 0 ∧
    (runPipeline ⟨InputFile.csv [], none⟩).1.output ≠ none :=
  ⟨rfl, rfl, fun h => Option.noConfusion h⟩

/-- C2 (amended): the EmptyInput diagnostic (exit status 1, no output
written) occurs exactly when the input file has no content at all to
parse; a file with a header row parses to a zero-row table and the run
proceeds to write a report. -/
theorem empty_input_only_for_contentless_file (out : Option String) (rows : List Row) :
    runPipeline ⟨InputFile.emptyFile, out⟩ =
      (⟨InputFile.emptyFile, out⟩,
        RunResult.errEmpty ("Error: File " ++ INPUT_FILE ++ " is empty.")) ∧
    exitCode (runPipeline ⟨InputFile.emptyFile, out⟩).2 = 1 ∧
    (runPipeline ⟨InputFile.csv rows, out⟩).2 =
      RunResult.success ("Analysis complete! Report saved to " ++ OUTPUT_FILE) :=
  ⟨rfl, rfl, rfl⟩

/-- C8 (confirmed): one run is a function of the input file only and
overwrites the output file; running the pipeline again on the resulting
state reproduces the state and outcome exactly, so two runs on an
unchanged input produce byte-identical output files. -/
theorem pipeline_idempotent (fs : FS) :
    runPipeline (runPipeline fs).1 = runPipeline fs := by
  obtain ⟨i, out⟩ := fs
  cases i <;> rfl

/-- C9 (as stated, refuted): line 27 does modify the loaded table -- it
attaches a new `email_domain` column, so the frame after that assignment
differs from the freshly loaded one. -/
theorem table_mutation_counterexample :
    addDomainColumn (loadFrame [⟨1, "A", "a@b".data⟩]) ≠
      loadFrame [⟨1, "A", "a@b".data⟩] := by
  intro h
  simpa [addDomainColumn, loadFrame] using congrArg DataFrame.emailDomain h

/-- C9 (amended): after loading, the original rows (records, columns and
order) are never modified; the only mutation of the table is that line 27
attaches the derived `email_domain` column. -/
theorem rows_readonly_after_load (df : DataFrame) :
    (addDomainColumn df).rows = df.rows ∧
    (addDomainColumn df).emailDomain = some (emailDomainColumn df.rows) :=
  ⟨rfl, rfl⟩

/-! Helper lemmas for the salary reductions. -/

theorem foldl_min_le (xs : List ℚ) (a : ℚ) :
    xs.foldl min a ≤ a ∧ ∀ x ∈ xs, xs.foldl min a ≤ x := by
  induction xs generalizing a with
  | nil => simp
  | cons y ys ih =>
    obtain ⟨h1, h2⟩ := ih (min a y)
    refine ⟨le_trans h1 (min_le_left a y), ?_⟩
    intro x hx
    rcases List.mem_cons.mp hx with rfl | hx'
    · exact le_trans h1 (min_le_right a x)
    · exact h2 x hx'

theorem le_foldl_max (xs : List ℚ) (a : ℚ) :
    a ≤ xs.foldl max a ∧ ∀ x ∈ xs, x ≤ xs.foldl max a := by
  induction xs generalizing a with
  | nil => simp
  | cons y ys ih =>
    obtain ⟨h1, h2⟩ := ih (max a y)
    refine ⟨le_trans (le_max_left a y) h1, ?_⟩
    intro x hx
    rcases List.mem_cons.mp hx with rfl | hx'
    · exact le_trans (le_max_right a x) h1
    · exact h2 x hx'

theorem seriesMin_le {xs : List ℚ} {m x : ℚ}
    (hm : seriesMin xs = some m) (hx : x ∈ xs) : m ≤ x := by
  cases xs with
  | nil => cases hx
  | cons y ys =>
    have hm' : ys.foldl min y = m := by simpa [seriesMin] using hm
    rcases List.mem_cons.mp hx with rfl | hx'
    · exact hm' ▸ (foldl_min_le ys x).1
    · exact hm' ▸ (foldl_min_le ys y).2 x hx'

theorem le_seriesMax {xs : List ℚ} {M x : ℚ}
    (hM : seriesMax xs = some M) (hx : x ∈ xs) : x ≤ M := by
  cases xs with
  | nil => cases hx
  | cons y ys =>
    have hM' : ys.foldl max y = M := by simpa [seriesMax] using hM
    rcases List.mem_cons.mp hx with rfl | hx'
    · exact hM' ▸ (le_foldl_max ys x).1
    · exact hM' ▸ (le_foldl_max ys y).2 x hx'

theorem mul_length_le_sum {m : ℚ} {xs : List ℚ}
    (h : ∀ x ∈ xs, m ≤ x) : m * xs.length ≤ xs.sum := by
  induction xs with
  | nil => simp
  | cons y ys ih =>
    have h1 := h y (List.mem_cons_self y ys)
    have h2 := ih (fun x hx => h x (List.mem_cons_of_mem y hx))
    simp only [List.sum_cons, List.length_cons]
    push_cast
    have he : m * ((ys.length : ℚ) + 1) = m * ys.length + m := by ring
    rw [he]
    linarith

theorem sum_le_mul_length {M : ℚ} {xs : List ℚ}
    (h : ∀ x ∈ xs, x ≤ M) : xs.sum ≤ M * xs.length := by
  induction xs with
  | nil => simp
  | cons y ys ih =>
    have h1 := h y (List.mem_cons_self y ys)
    have h2 := ih (fun x hx => h x (List.mem_cons_of_mem y hx))
    simp only [List.sum_cons, List.length_cons]
    push_cast
    have he : M * ((ys.length : ℚ) + 1) = M * ys.length + M := by ring
    rw [he]
    linarith

theorem mem_sortQ {xs : List ℚ} {x : ℚ} (hx : x ∈ sortQ xs) : x ∈ xs := by
  unfold sortQ at hx
  exact (List.mem_insertionSort _).mp hx

/-- C4 (confirmed): on a non-empty table the four saved salary statistics
satisfy `min ≤ median ≤ max` and `min ≤ mean ≤ max`. -/
theorem salary_summary_bounds (rows : List Row) (h : rows ≠ []) (mn mx me md : ℚ)
    (hmn : seriesMin (salaries rows) = some mn)
    (hmx : seriesMax (salaries rows) = some mx)
    (hme : seriesMean (salaries rows) = some me)
    (hmd : medianQ (salaries rows) = some md) :
    mn ≤ md ∧ md ≤ mx ∧ mn ≤ me ∧ me ≤ mx := by
  set xs := salaries rows with hxs
  have hne : xs ≠ [] := fun h0 => h (List.map_eq_nil_iff.mp (hxs ▸ h0))
  have hlen : 0 < xs.length := List.length_pos.mpr hne
  have hlenQ : (0 : ℚ) < xs.length := by exact_mod_cast hlen
  rw [seriesMean, if_neg hne] at hme
  have hme' : me = xs.sum / xs.length := (Option.some.inj hme).symm
  rw [medianQ, if_neg hne] at hmd
  have hmd' : md = ((sortQ xs).getD ((xs.length - 1) / 2) 0
      + (sortQ xs).getD (xs.length / 2) 0) / 2 := (Option.some.inj hmd).symm
  have hslen : (sortQ xs).length = xs.length := by
    unfold sortQ
    exact List.length_insertionSort _ xs
  have hi : (xs.length - 1) / 2 < (sortQ xs).length := by omega
  have hj : xs.length / 2 < (sortQ xs).length := by omega
  have hu_mem : (sortQ xs).getD ((xs.length - 1) / 2) 0 ∈ xs := by
    rw [List.getD_eq_getElem _ _ hi]
    exact mem_sortQ (List.getElem_mem hi)
  have hv_mem : (sortQ xs).getD (xs.length / 2) 0 ∈ xs := by
    rw [List.getD_eq_getElem _ _ hj]
    exact mem_sortQ (List.getElem_mem hj)
  have hu1 := seriesMin_le hmn hu_mem
  have hu2 := le_seriesMax hmx hu_mem
  have hv1 := seriesMin_le hmn hv_mem
  have hv2 := le_seriesMax hmx hv_mem
  refine ⟨?_, ?_, ?_, ?_⟩
  · rw [hmd']
    linarith
  · rw [hmd']
    linarith
  · rw [hme', le_div_iff₀ hlenQ]
    exact mul_length_le_sum (fun x hx => seriesMin_le hmn hx)
  · rw [hme', div_le_iff₀ hlenQ]
    exact sum_le_mul_length (fun x hx => le_seriesMax hmx hx)

/-- Witness for C4 on the three rows of Scenario 1 (min 50000, max 70000,
mean 60000, median 60000). -/
theorem salary_summary_bounds_witness :
    (sampleRows ≠ [] ∧
     seriesMin (salaries sampleRows) = some 50000 ∧
     seriesMax (salaries sampleRows) = some 70000 ∧
     seriesMean (salaries sampleRows) = some 60000 ∧
     medianQ (salaries sampleRows) = some 60000) ∧
    ((50000 : ℚ) ≤ 60000 ∧ (60000 : ℚ) ≤ 70000 ∧
     (50000 : ℚ) ≤ 60000 ∧ (60000 : ℚ) ≤ 70000) := by
  have hne : sampleRows ≠ [] := by simp [sampleRows]
  have hmn : seriesMin (salaries sampleRows) = some 50000 := by
    show seriesMin [(50000 : ℚ), 60000, 70000] = some 50000
    rw [seriesMin]
    norm_num [List.foldl, min_def]
  have hmx : seriesMax (salaries sampleRows) = some 70000 := by
    show seriesMax [(50000 : ℚ), 60000, 70000] = some 70000
    rw [seriesMax]
    norm_num [List.foldl, max_def]
  have hme : seriesMean (salaries sampleRows) = some 60000 := by
    show seriesMean [(50000 : ℚ), 60000, 70000] = some 60000
    rw [seriesMean, if_neg (by decide)]
    norm_num
  have hmd : medianQ (salaries sampleRows) = some 60000 := by
    show medianQ [(50000 : ℚ), 60000, 70000] = some 60000
    rw [medianQ, if_neg (by decide)]
    norm_num [sortQ, List.insertionSort, List.orderedInsert]
  exact ⟨⟨hne, hmn, hmx, hme, hmd⟩,
    salary_summary_bounds sampleRows hne 50000 70000 60000 60000 hmn hmx hme hmd⟩

/-- C5 (confirmed): for a non-empty salary sequence the computed median
equals the middle element of the sorted sequence when the length is odd,
and the average of the two middle elements when the length is even. -/
theorem median_odd_even (xs : List ℚ) (h : xs ≠ []) :
    (xs.length % 2 = 1 →
      medianQ xs = some ((sortQ xs).getD (xs.length / 2) 0)) ∧
    (xs.length % 2 = 0 →
      medianQ xs = some (((sortQ xs).getD (xs.length / 2 - 1) 0
        + (sortQ xs).getD (xs.length / 2) 0) / 2)) := by
  have hlen : 0 < xs.length := List.length_pos.mpr h
  constructor
  · intro hodd
    have h2 : (xs.length - 1) / 2 = xs.length / 2 := by omega
    rw [medianQ, if_neg h, h2, add_self_div_two]
  · intro heven
    have h2 : (xs.length - 1) / 2 = xs.length / 2 - 1 := by omega
    rw [medianQ, if_neg h, h2]

/-- Witness for C5 on the odd-length sequence `[3, 1, 2]`. -/
theorem median_odd_even_witness :
    (([(3 : ℚ), 1, 2] ≠ []) ∧ [(3 : ℚ), 1, 2].length % 2 = 1) ∧
    medianQ [(3 : ℚ), 1, 2] =
      some ((sortQ [(3 : ℚ), 1, 2]).getD ([(3 : ℚ), 1, 2].length / 2) 0) :=
  ⟨⟨by decide, by decide⟩, (median_odd_even [3, 1, 2] (by decide)).1 (by decide)⟩

/-! Helper lemmas for `value_counts`. -/

theorem mem_firstAppearances {α : Type} [DecidableEq α] {l : List α} {k : α} :
    k ∈ firstAppearances l ↔ k ∈ l := by
  induction l with
  | nil => simp [firstAppearances]
  | cons a t ih =>
    simp only [firstAppearances, List.mem_cons, List.mem_filter, ih, decide_eq_true_eq]
    tauto

theorem nodup_firstAppearances {α : Type} [DecidableEq α] (l : List α) :
    (firstAppearances l).Nodup := by
  induction l with
  | nil => simp [firstAppearances]
  | cons a t ih =>
    simp only [firstAppearances]
    refine List.Nodup.cons ?_ (ih.filter _)
    intro hmem
    have := (List.mem_filter.mp hmem).2
    simp at this

theorem sum_map_filter_ne {α : Type} [DecidableEq α] (g : α → Nat) :
    ∀ {L : List α}, L.Nodup → ∀ {a : α}, a ∈ L →
      ((L.filter (fun b => b ≠ a)).map g).sum + g a = (L.map g).sum := by
  intro L
  induction L with
  | nil => intro _ a ha; cases ha
  | cons b t ih =>
    intro hnodup a ha
    obtain ⟨hbt, ht⟩ := List.nodup_cons.mp hnodup
    rcases List.mem_cons.mp ha with rfl | hat
    · have hfilter : t.filter (fun x => x ≠ a) = t :=
        List.filter_eq_self.mpr (fun x hx => by
          simp only [ne_eq, decide_eq_true_eq]
          intro h
          exact hbt (h ▸ hx))
      rw [List.filter_cons, if_neg (by simp), hfilter]
      simp [Nat.add_comm]
    · have hba : b ≠ a := fun h => hbt (h ▸ hat)
      rw [List.filter_cons, if_pos (by simpa using hba)]
      simp only [List.map_cons, List.sum_cons]
      have := ih ht hat
      omega

theorem sum_count_firstAppearances {α : Type} [DecidableEq α] (l : List α) :
    ((firstAppearances l).map (fun k => l.count k)).sum = l.length := by
  induction l with
  | nil => simp [firstAppearances]
  | cons a t ih =>
    simp only [firstAppearances, List.map_cons, List.sum_cons]
    rw [List.count_cons_self]
    have hmap : ((firstAppearances t).filter (fun b => b ≠ a)).map (fun k => (a :: t).count k)
        = ((firstAppearances t).filter (fun b => b ≠ a)).map (fun k => t.count k) := by
      apply List.map_congr_left
      intro k hk
      have hka : k ≠ a := by simpa using (List.mem_filter.mp hk).2
      exact List.count_cons_of_ne hka t
    rw [hmap]
    by_cases hat : a ∈ t
    · have haFA : a ∈ firstAppearances t := mem_firstAppearances.mpr hat
      have hsum : (((firstAppearances t).filter (fun b => b ≠ a)).map
            (fun k => t.count k)).sum + t.count a
          = ((firstAppearances t).map (fun k => t.count k)).sum :=
        sum_map_filter_ne (fun k => t.count k) (nodup_firstAppearances t) haFA
      simp only [List.length_cons]
      omega
    · have haFA : a ∉ firstAppearances t := fun h => hat (mem_firstAppearances.mp h)
      have hfilter : (firstAppearances t).filter (fun b => b ≠ a) = firstAppearances t :=
        List.filter_eq_self.mpr (fun x hx => by
          simp only [ne_eq, decide_eq_true_eq]
          intro h
          exact haFA (h ▸ hx))
      have hcount : t.count a = 0 := List.count_eq_zero_of_not_mem hat
      rw [hfilter, ih]
      simp only [hcount, List.length_cons]
      omega

theorem sum_valueCounts {α : Type} [DecidableEq α] (l : List α) :
    ((valueCounts l).map Prod.snd).sum = l.length := by
  unfold valueCounts
  have hperm :=
    List.perm_insertionSort (rankLE l) ((firstAppearances l).map (fun k => (k, l.count k)))
  rw [(hperm.map Prod.snd).sum_eq, List.map_map]
  simpa [Function.comp] using sum_count_firstAppearances l

theorem sorted_valueCounts {α : Type} [DecidableEq α] (l : List α) :
    List.Sorted (rankLE l) (valueCounts l) := by
  haveI : IsTotal (α × Nat) (rankLE l) := ⟨by
    intro p q
    unfold rankLE
    omega⟩
  haveI : IsTrans (α × Nat) (rankLE l) := ⟨by
    intro p q s hpq hqs
    unfold rankLE at hpq hqs ⊢
    omega⟩
  exact List.sorted_insertionSort _ _

theorem mem_valueCounts {α : Type} [DecidableEq α] {l : List α} {p : α × Nat}
    (hp : p ∈ valueCounts l) : p.1 ∈ l ∧ p.2 = l.count p.1 := by
  unfold valueCounts at hp
  rw [List.mem_insertionSort] at hp
  obtain ⟨k, hk, hkp⟩ := List.mem_map.mp hp
  cases hkp
  exact ⟨mem_firstAppearances.mp hk, rfl⟩

theorem nodup_keys_valueCounts {α : Type} [DecidableEq α] (l : List α) :
    ((valueCounts l).map Prod.fst).Nodup := by
  unfold valueCounts
  have hperm :=
    (List.perm_insertionSort (rankLE l)
      ((firstAppearances l).map (fun k => (k, l.count k)))).map Prod.fst
  rw [hperm.nodup_iff, List.map_map]
  have hcomp : Prod.fst ∘ (fun k : α => (k, l.count k)) = id := rfl
  rw [hcomp, List.map_id]
  exact nodup_firstAppearances l

/-- C6 (confirmed): the reported occupation ranking has at most 3 entries
and is sorted by strictly descending count with equal counts ordered by
first appearance in the input table, and across all occupations (the
untruncated `value_counts`) the counts sum to the number of rows. -/
theorem occupation_ranking_spec (rows : List Row) :
    (topOccupations rows).length ≤ 3 ∧
    List.Pairwise (fun p q : String × Nat => q.2 ≤ p.2 ∧
      (p.2 = q.2 →
        (rows.map (·.occupation)).indexOf p.1 < (rows.map (·.occupation)).indexOf q.1))
      (topOccupations rows) ∧
    ((valueCounts (rows.map (·.occupation))).map Prod.snd).sum = rows.length := by
  refine ⟨?_, ?_, ?_⟩
  · unfold topOccupations
    exact List.length_take_le 3 _
  · unfold topOccupations
    set occs := rows.map (·.occupation) with hoccs
    have hsorted : List.Pairwise (rankLE occs) (valueCounts occs) := sorted_valueCounts occs
    have hne : List.Pairwise (fun p q : String × Nat => p.1 ≠ q.1) (valueCounts occs) :=
      List.pairwise_map.mp (nodup_keys_valueCounts occs)
    have himp : List.Pairwise (fun p q : String × Nat => q.2 ≤ p.2 ∧
        (p.2 = q.2 → occs.indexOf p.1 < occs.indexOf q.1)) (valueCounts occs) := by
      refine (hsorted.and hne).imp_of_mem ?_
      intro p q hp hq hpq
      obtain ⟨hr, hne'⟩ := hpq
      have hp1 := (mem_valueCounts hp).1
      have hq1 := (mem_valueCounts hq).1
      unfold rankLE at hr
      constructor
      · omega
      · intro he
        have hidx : occs.indexOf p.1 ≠ occs.indexOf q.1 :=
          fun hh => hne' ((List.indexOf_inj hp1 hq1).mp hh)
        omega
    exact List.Pairwise.sublist (List.take_sublist _ _) himp
  · rw [sum_valueCounts]
    simp

theorem length_filterMap_id_all_some {β : Type} (l : List (Option β))
    (h : ∀ o ∈ l, o.isSome = true) : (l.filterMap id).length = l.length := by
  induction l with
  | nil => simp
  | cons o t ih =>
    have ho := h o (List.mem_cons_self o t)
    obtain ⟨b, rfl⟩ := Option.isSome_iff_exists.mp ho
    have := ih (fun o ho => h o (List.mem_cons_of_mem _ ho))
    simp [List.filterMap_cons, this]

theorem length_filterMap_id_lt {β : Type} (l : List (Option β))
    (h : none ∈ l) : (l.filterMap id).length < l.length := by
  induction l with
  | nil => cases h
  | cons o t ih =>
    rcases List.mem_cons.mp h with h0 | ht
    · cases h0
      simp only [List.filterMap_cons, id, List.length_cons]
      exact Nat.lt_succ_of_le (List.length_filterMap_le _ _)
    · cases o with
      | none =>
        simp only [List.filterMap_cons, id, List.length_cons]
        exact Nat.lt_succ_of_le (List.length_filterMap_le _ _)
      | some b =>
        have := ih ht
        simp only [List.filterMap_cons, id, List.length_cons]
        omega

theorem emailDomainColumn_length (rows : List Row) :
    (emailDomainColumn rows).length = rows.length := by
  simp [emailDomainColumn]

/-- C7 (confirmed): when every email in the table has exactly one `@`
character, every row contributes a domain, so the domain counts sum to
the number of rows. -/
theorem domain_counts_sum_wellformed (rows : List Row)
    (h : ∀ r ∈ rows, r.email.count '@' = 1) :
    ((domainCounts rows).map Prod.snd).sum = rows.length := by
  unfold domainCounts
  rw [sum_valueCounts, length_filterMap_id_all_some]
  · exact emailDomainColumn_length rows
  · intro o ho
    obtain ⟨r, hr, rfl⟩ := List.mem_map.mp (by simpa [emailDomainColumn] using ho)
    exact extractDomain_isSome (h r hr)

/-- Witness for C7 on the three rows of Scenario 1 (domains `x.com`,
`y.com`, `x.com`; counts sum to 3). -/
theorem domain_counts_sum_wellformed_witness :
    (∀ r ∈ sampleRows, r.email.count '@' = 1) ∧
    ((domainCounts sampleRows).map Prod.snd).sum = sampleRows.length :=
  ⟨by decide, domain_counts_sum_wellformed sampleRows (by decide)⟩

/-- C10 (confirmed): a row whose email has no `@` gets a missing domain
(`split('@').str[1]` is out of range), `value_counts` drops it, and the
domain counts then sum to strictly less than the number of rows. -/
theorem no_at_email_excluded (rows : List Row) (r : Row) (hr : r ∈ rows)
    (h0 : r.email.count '@' = 0) :
    extractDomain r.email = none ∧
    ((domainCounts rows).map Prod.snd).sum < rows.length := by
  have hnone := extractDomain_eq_none h0
  refine ⟨hnone, ?_⟩
  unfold domainCounts
  rw [sum_valueCounts]
  have hmem : (none : Option (List Char)) ∈ emailDomainColumn rows := by
    unfold emailDomainColumn
    exact List.mem_map.mpr ⟨r, hr, hnone⟩
  have := length_filterMap_id_lt _ hmem
  rwa [emailDomainColumn_length] at this

/-- Witness for C10 on a one-row table whose email has no `@`. -/
theorem no_at_email_excluded_witness :
    (rowNoAt ∈ [rowNoAt] ∧ rowNoAt.email.count '@' = 0) ∧
    (extractDomain rowNoAt.email = none ∧
     ((domainCounts [rowNoAt]).map Prod.snd).sum < [rowNoAt].length) :=
  ⟨⟨List.mem_cons_self rowNoAt [], by decide⟩,
    no_at_email_excluded [rowNoAt] rowNoAt (List.mem_cons_self rowNoAt []) (by decide)⟩

end AnalyzeUsers
